import Mathlib

/-!
A shallow embedding of the core of the `tools` repository
(`文本表格校验/src/1.提取加合并.py`, `2.文本表格比较.py`, `gn_check_all.py`):
the block-extraction scanner, the wildcard-mask to CIDR-prefix-length
converter, the address-line rewriter, the register loader, and the two
reconciliation loops, together with theorems settling the frozen claims.

Python strings are modelled as Lean `String`; exceptions (`int()` raising
`ValueError`) are modelled with `Option` (`none` = the call raised);
Python `dict`/`set` values are modelled as insertion-ordered association
lists / duplicate-free lists.
-/

namespace GnTools

/-- ASCII whitespace as recognised by Python's `str.strip` / `\s`
(the inputs handled by this tool are ASCII). -/
def isPySpace (c : Char) : Bool :=
  c = ' ' || c = '\t' || c = '\n' || c = '\r' || c = '\x0b' || c = '\x0c'

/-- Python `str.strip()`: remove leading and trailing whitespace. -/
def pyStrip (s : String) : String :=
  String.mk (((s.toList.dropWhile isPySpace).reverse.dropWhile isPySpace).reverse)

/-- Python `str.rstrip("\n")`: remove all trailing newline characters. -/
def rstripNewline (s : String) : String :=
  String.mk ((s.toList.reverse.dropWhile (fun c => c = '\n')).reverse)

/-- Python `s.startswith(t)`. -/
def pyStartsWith (s t : String) : Bool :=
  t.toList.isPrefixOf s.toList

/-- Python `s.split(".")` (a one-character separator, no maxsplit). -/
def splitDotAux : List Char → List Char → List String
  | [], acc => [String.mk acc.reverse]
  | '.' :: rest, acc => String.mk acc.reverse :: splitDotAux rest []
  | c :: rest, acc => splitDotAux rest (c :: acc)

/-- Python `s.split(".")`. -/
def splitOnDot (s : String) : List String :=
  splitDotAux s.toList []

/-- Digit run to a natural number, `none` if empty or a non-digit occurs. -/
def digitsToNat (cs : List Char) : Option Nat :=
  if cs = [] then none
  else if cs.all Char.isDigit then
    some (cs.foldl (fun a c => a * 10 + (c.toNat - 48)) 0)
  else none

/-- Python `int(s)` on a decimal string: strips surrounding whitespace,
allows one leading sign, then decimal digits; `none` models `ValueError`
(underscore digit grouping is not modelled — no input in this code base
uses it). -/
def pyInt (s : String) : Option Int :=
  match (pyStrip s).toList with
  | '+' :: rest => (digitsToNat rest).map (fun n => (n : Int))
  | '-' :: rest => (digitsToNat rest).map (fun n => -(n : Int))
  | rest => (digitsToNat rest).map (fun n => (n : Int))

/-- Binary popcount by fuelled halving (`fuel ≥ n` suffices). -/
def popCountFuel : Nat → Nat → Nat
  | 0, _ => 0
  | fuel + 1, n => if n = 0 then 0 else n % 2 + popCountFuel fuel (n / 2)

/-- Number of 1-bits in the binary representation of `n`. -/
def popCountNat (n : Nat) : Nat := popCountFuel n n

/-- Python `bin(o).count("1")` for an `int` `o` (for negative `o`,
`bin` renders a minus sign followed by the bits of `|o|`). -/
def pyBinCount1 (o : Int) : Nat := popCountNat o.natAbs

/-- Model of `[int(x) for x in parts]`: `none` models the comprehension raising at
the first non-integer element. -/
def pyIntList : List String → Option (List Int)
  | [] => some []
  | s :: rest =>
    match pyInt s, pyIntList rest with
    | some n, some ns => some (n :: ns)
    | _, _ => none

/-- Embedding of `wildcard_to_prefixlen` from `1.提取加合并.py` (identical copy in
`gn_check_all.py`): strip, treat a lone `"0"` as `0.0.0.0`, otherwise
split on `"."`, pad with `"0"` octets to four, parse each with `int`,
complement each octet as `255 - o` and sum the 1-bits of the four
complements.  `none` models `int()` raising `ValueError`. -/
def wildcard_to_prefixlen (wc : String) : Option Int :=
  let t := pyStrip wc
  let octs? : Option (List Int) :=
    if t = "0" then some [0, 0, 0, 0]
    else pyIntList ((splitOnDot t ++ ["0", "0", "0", "0"]).take 4)
  match octs? with
  | none => none
  | some octets =>
    some (((octets.map (fun o => (255 : Int) - o)).map
      (fun m => (pyBinCount1 m : Int))).sum)

/-- The capture groups of `LINE_PATTERN`
`^(?P<prefix>\s*address\s+\d+\s+)(?P<ip>\d+\.\d+\.\d+\.\d+)\s+wildcard\s+(?P<wc>\S+)(?P<suffix>.*)$`.
`pfx`/`sfx` are the `prefix`/`suffix` groups. -/
structure AddrMatch where
  pfx : String
  ip : String
  wc : String
  sfx : String
deriving DecidableEq

/-- Drop the literal `lit` from the front of `cs`, or fail. -/
def dropLit : List Char → List Char → Option (List Char)
  | [], rest => some rest
  | c :: cs, d :: ds => if c = d then dropLit cs ds else none
  | _ :: _, [] => none

/-- Regex `\d+`: a non-empty run of digits plus the remainder. -/
def takeDigits1 (l : List Char) : Option (List Char × List Char) :=
  let d := l.takeWhile Char.isDigit
  if d = [] then none else some (d, l.dropWhile Char.isDigit)

/-- Regex `\s+`: a non-empty run of whitespace plus the remainder. -/
def takeSpaces1 (l : List Char) : Option (List Char × List Char) :=
  let d := l.takeWhile isPySpace
  if d = [] then none else some (d, l.dropWhile isPySpace)

/-- One expected character. -/
def expectChar (c : Char) : List Char → Option (List Char)
  | d :: rest => if d = c then some rest else none
  | [] => none

/-- Embedding of `LINE_PATTERN.match`: a deterministic parser equivalent to the regex —
every pair of adjacent greedy quantifiers in the pattern draws from
disjoint character classes (`\s` vs `address`/`\d`/`wildcard`/`\S`,
`\d` vs `\.`/`\s`), so greedy matching without backtracking is exact
(inputs are single lines, so `.` and `$` need no newline cases). -/
def parseDotted (l : List Char) : Option (List Char × List Char) :=
  match takeDigits1 l with
  | none => none
  | some (o1, r1) =>
    match expectChar '.' r1 with
    | none => none
    | some r2 =>
      match takeDigits1 r2 with
      | none => none
      | some (o2, r3) =>
        match expectChar '.' r3 with
        | none => none
        | some r4 =>
          match takeDigits1 r4 with
          | none => none
          | some (o3, r5) =>
            match expectChar '.' r5 with
            | none => none
            | some r6 =>
              match takeDigits1 r6 with
              | none => none
              | some (o4, r7) =>
                some (o1 ++ ['.'] ++ o2 ++ ['.'] ++ o3 ++ ['.'] ++ o4, r7)

/-- The `\s*address\s+\d+\s+` group: returns the captured text and the
remainder. -/
def parsePre (cs : List Char) : Option (List Char × List Char) :=
  match dropLit "address".toList (cs.dropWhile isPySpace) with
  | none => none
  | some r1 =>
    match takeSpaces1 r1 with
    | none => none
    | some (ws1, r2) =>
      match takeDigits1 r2 with
      | none => none
      | some (d1, r3) =>
        match takeSpaces1 r3 with
        | none => none
        | some (ws2, r4) =>
          some (cs.takeWhile isPySpace ++ "address".toList ++ ws1 ++ d1 ++ ws2,
                r4)

/-- The tail `\s+wildcard\s+(?P<wc>\S+)(?P<suffix>.*)$`: returns the
`wc` and `suffix` captures. -/
def parseWcTail (l : List Char) : Option (List Char × List Char) :=
  match takeSpaces1 l with
  | none => none
  | some (_, r1) =>
    match dropLit "wildcard".toList r1 with
    | none => none
    | some r2 =>
      match takeSpaces1 r2 with
      | none => none
      | some (_, r3) =>
        let wcl := r3.takeWhile (fun c => !(isPySpace c))
        if wcl = [] then none
        else some (wcl, r3.dropWhile (fun c => !(isPySpace c)))

def lineMatch (s : String) : Option AddrMatch :=
  match parsePre s.toList with
  | none => none
  | some (pre, r1) =>
    match parseDotted r1 with
    | none => none
    | some (ipc, r2) =>
      match parseWcTail r2 with
      | none => none
      | some (wcl, sfl) =>
        some ⟨String.mk pre, String.mk ipc, String.mk wcl, String.mk sfl⟩

/-- Embedding of `convert_line` from `1.提取加合并.py` (identical copy in
`gn_check_all.py`): match `LINE_PATTERN` against the line with trailing
newlines stripped; on no match return the line unchanged, otherwise
rebuild it as `prefix ++ ip ++ "/" ++ prefixlen ++ suffix ++ "\n"`.
`none` models the propagated `ValueError` from `int()` inside
`wildcard_to_prefixlen`. -/
def convert_line (line : String) : Option String :=
  match lineMatch (rstripNewline line) with
  | none => some line
  | some m =>
    match wildcard_to_prefixlen m.wc with
    | none => none
    | some p => some (m.pfx ++ m.ip ++ "/" ++ toString p ++ m.sfx ++ "\n")

/-- The stanza-open token of `extract_blocks_from_file`. -/
def stanzaOpen : String := "ip address-set internationalgn"

/-- The loop body and final flush of `extract_blocks_from_file`
(`1.提取加合并.py`, identical copy in `gn_check_all.py`), with the
loop state (`in_block`, `current_block`, `blocks`) made explicit.
Blocks are emitted as the concatenation of their raw lines, exactly as
`"".join(current_block)` does. -/
def extractBlocksAux : List String → Bool → List String → List String → List String
  | [], inb, cur, blocks =>
    if inb && !cur.isEmpty then blocks ++ [String.join cur] else blocks
  | line :: rest, inb, cur, blocks =>
    if pyStartsWith (pyStrip line) stanzaOpen then
      let blocks' := if inb && !cur.isEmpty then blocks ++ [String.join cur] else blocks
      let cur' := if inb && !cur.isEmpty then ([] : List String) else cur
      extractBlocksAux rest true (cur' ++ [line]) blocks'
    else if inb then
      let cur' := cur ++ [line]
      if pyStrip line = "#" then extractBlocksAux rest false [] (blocks ++ [String.join cur'])
      else extractBlocksAux rest true cur' blocks
    else extractBlocksAux rest inb cur blocks

/-- Embedding of `extract_blocks_from_file`, over an in-memory list of lines. -/
def extract_blocks (lines : List String) : List String :=
  extractBlocksAux lines false [] []

/-- Embedding of `normalize_net` from `2.文本表格比较.py` (identical copy in
`gn_check_all.py`): `re.sub(r"\s+", "", net)`, i.e. delete every
whitespace character.  (The `net is None` guard of the Python code is
unrepresentable here: a Lean `String` is never `None`.) -/
def normalize_net (net : String) : String :=
  String.mk (net.toList.filter (fun c => !(isPySpace c)))

/-- Insert into a `≤`-sorted list of strings. -/
def insertSorted (x : String) : List String → List String
  | [] => [x]
  | y :: ys => if x ≤ y then x :: y :: ys else y :: insertSorted x ys

/-- Python `sorted` on a collection of strings (code-point lexicographic
order; duplicates in a sorted list of strings are identical, so any
sorting algorithm yields the same list). -/
def sortStrings : List String → List String
  | [] => []
  | x :: xs => insertSorted x (sortStrings xs)

/-- Association-list lookup, modelling `op in d` / `d[op]` / `d.get(op)`
on a Python `dict` keyed by strings. -/
def lookupNets (k : String) : List (String × List String) → Option (List String)
  | [] => none
  | (k', v) :: rest => if k = k' then some v else lookupNets k rest

/-- The inner loop shared by both reconcilers: the inventory nets whose
normalized form is absent from `excelNetsNorm`. -/
def mismatchNets (excelNetsNorm : List String) (nets : List String) : List String :=
  nets.filter (fun n => !(excelNetsNorm.contains (normalize_net n)))

/-- The two diff dictionaries built by `compare_and_output`
(`gn_check_all.py`): `mismatched` is `diff_exist` (carrier in the Excel
register but with nets missing there), `unknownCarrier` is
`diff_not_exist` (carrier absent from the register). -/
structure DiffReport where
  mismatched : List (String × List String)
  unknownCarrier : List (String × List String)
deriving DecidableEq

/-- The comparison loop of `compare_and_output` (`gn_check_all.py`,
lines 246-264): per inventory carrier, either all its nets go to
`diff_not_exist` (carrier not in the register), or the nets whose
normalized form is absent from the carrier's normalized register set go
to `diff_exist` when that difference is non-empty.  The register map is
re-normalized entry-wise (`{normalize_net(n) for n in excel_map[op]}`).
Processing the head first and consing its contribution preserves the
Python insertion order. -/
def compare_core (em : List (String × List String)) :
    List (String × List String) → DiffReport
  | [] => ⟨[], []⟩
  | (op, nets) :: rest =>
    let r := compare_core em rest
    match lookupNets op em with
    | none => ⟨r.mismatched, (op, sortStrings nets) :: r.unknownCarrier⟩
    | some enets =>
      let diff := mismatchNets (enets.map normalize_net) nets
      if diff.isEmpty then r
      else ⟨(op, sortStrings diff) :: r.mismatched, r.unknownCarrier⟩

/-- The comparison loop of `main` in `2.文本表格比较.py` (lines
117-129): a single diff dictionary; a carrier absent from the register
is treated as having the empty register set (`excel_map.get(op, set())`),
and the register sets are used as stored, without re-normalization. -/
def diff_main (em : List (String × List String)) :
    List (String × List String) → List (String × List String)
  | [] => []
  | (op, nets) :: rest =>
    let enorm := (lookupNets op em).getD []
    let diff := mismatchNets enorm nets
    let r := diff_main em rest
    if diff.isEmpty then r else (op, sortStrings diff) :: r

/-- The per-carrier content of a `DiffReport`: the union of its two
buckets (a lookup that tries `mismatched` first, then
`unknownCarrier`). -/
def reportLookup (r : DiffReport) (op : String) : Option (List String) :=
  match lookupNets op r.mismatched with
  | some v => some v
  | none => lookupNets op r.unknownCarrier

/-- Python `str.splitlines()` restricted to the `\n`, `\r\n`, `\r`
terminators (no trailing empty piece; `"".splitlines() == []`). -/
def pySplitlinesAux : List Char → List Char → List String
  | [], acc => if acc.isEmpty then [] else [String.mk acc.reverse]
  | '\r' :: '\n' :: rest, acc => String.mk acc.reverse :: pySplitlinesAux rest []
  | '\n' :: rest, acc => String.mk acc.reverse :: pySplitlinesAux rest []
  | '\r' :: rest, acc => String.mk acc.reverse :: pySplitlinesAux rest []
  | c :: rest, acc => pySplitlinesAux rest (c :: acc)

/-- Python `str.splitlines()`. -/
def pySplitlines (s : String) : List String :=
  pySplitlinesAux s.toList []

/-- Python `str(op)` on a forward-filled carrier cell: a cell that is still
missing after the fill is a pandas `NaN`, which `str` renders as
`"nan"`. -/
def strOfCell : Option String → String
  | some s => s
  | none => "nan"

/-- Model of `excel_map[op].add(norm_net)` on a `defaultdict(set)`: insertion
order of both the dict keys and each set is kept, duplicates collapse. -/
def addNet (m : List (String × List String)) (op net : String) :
    List (String × List String) :=
  match m with
  | [] => [(op, [net])]
  | (k, vs) :: rest =>
    if k = op then (k, if vs.contains net then vs else vs ++ [net]) :: rest
    else (k, vs) :: addNet rest op net

/-- The per-row body of `load_excel_gn_map`'s loop, given the already
resolved (forward-filled) carrier cell. -/
def loadRow (resolved : Option String) (gnCell : Option String)
    (m : List (String × List String)) : List (String × List String) :=
  match gnCell with
  | none => m
  | some gn =>
    let op := pyStrip (strOfCell resolved)
    if op = "" then m
    else
      (pySplitlines gn).foldl (fun m part =>
        let raw := pyStrip part
        if raw = "" then m
        else
          let norm := normalize_net raw
          if norm = "" then m else addNet m op norm) m

/-- The row loop of `load_excel_gn_map` (`2.文本表格比较.py`, lines
40-78; identical copy in `gn_check_all.py`), with `op_col.ffill()` fused
into the recursion: `last` is the most recent non-missing carrier cell,
so each row's resolved carrier is its own cell when present, else
`last` — exactly pandas forward fill on the carrier column. -/
def loadRows : List (Option String × Option String) → Option String →
    List (String × List String) → List (String × List String)
  | [], _, m => m
  | (cop, gn) :: rest, last, m =>
    let resolved := match cop with
      | some v => some v
      | none => last
    loadRows rest resolved (loadRow resolved gn m)

/-- Embedding of `load_excel_gn_map` over already-decoded spreadsheet rows
`(carrierCell, netCell)`, where `none` is a missing (NaN) cell. -/
def load_register (rows : List (Option String × Option String)) :
    List (String × List String) :=
  loadRows rows none []

example : wildcard_to_prefixlen "0.0.0.0" = some 32 := by decide
example : wildcard_to_prefixlen "0" = some 32 := by decide
example : wildcard_to_prefixlen "0.0.0.255" = some 24 := by decide
example : wildcard_to_prefixlen "0.0.0.7" = some 29 := by decide
example : wildcard_to_prefixlen "255.255.255.255" = some 0 := by decide
example : wildcard_to_prefixlen "foo" = none := by decide
example :
    convert_line "  address 10 1.2.3.4 wildcard 0.0.0.7 description ABC\n"
      = some "  address 10 1.2.3.4/29 description ABC\n" := by decide
example : convert_line "no address here\n" = some "no address here\n" := by decide
example : convert_line "address 1 1.2.3.4 wildcard foo description X" = none := by decide
example :
    (lineMatch (rstripNewline "address 1 1.2.3.4 wildcard foo description X")).isSome
      = true := by decide
example :
    compare_core [("CT", ["1.2.3.0/24"])]
        [("CT", ["1.2.3.0/24", "5.6.7.0/28"]), ("CU", ["9.9.9.0/30"])]
      = ⟨[("CT", ["5.6.7.0/28"])], [("CU", ["9.9.9.0/30"])]⟩ := by decide
example : normalize_net "1.2.3.0 /24" = normalize_net "1.2.3.0/24" := by decide
example :
    lookupNets "CT" (diff_main [("CT", ["1.2.3.0 /24"])] [("CT", ["1.2.3.0/24"])])
      ≠ reportLookup
          (compare_core [("CT", ["1.2.3.0 /24"])] [("CT", ["1.2.3.0/24"])]) "CT" := by
  decide
example :
    extract_blocks ["ip address-set internationalgn A\n", " address 1\n", "#\n",
        "junk\n", "ip address-set internationalgn B\n", "x\n"]
      = ["ip address-set internationalgn A\n address 1\n#\n",
         "ip address-set internationalgn B\nx\n"] := by decide
example :
    load_register [(some "CT", some "1.1.1.0/24"), (none, some "2.2.2.0/24")]
      = [("CT", ["1.1.1.0/24", "2.2.2.0/24"])] := by decide
example :
    load_register [(some "CT", none), (none, some "2.2.2.0/24")]
      = [("CT", ["2.2.2.0/24"])] := by decide
example : load_register [(none, some "2.2.2.0/24")] = [("nan", ["2.2.2.0/24"])] := by
  decide
example : load_register [(some " ", some "2.2.2.0/24")] = [] := by decide
example :
    load_register [(some "CT", some "1.1.1.0/24\n2.2.2.0/24")]
      = [("CT", ["1.1.1.0/24", "2.2.2.0/24"])] := by decide

/-! ### Helper lemmas -/

theorem mem_insertSorted {x a : String} {l : List String} :
    a ∈ insertSorted x l ↔ a = x ∨ a ∈ l := by
  induction l with
  | nil => simp [insertSorted]
  | cons y ys ih =>
    by_cases h : x ≤ y
    · simp [insertSorted, h]
    · simp only [insertSorted, if_neg h, List.mem_cons, ih]
      tauto

theorem mem_sortStrings {a : String} {l : List String} :
    a ∈ sortStrings l ↔ a ∈ l := by
  induction l with
  | nil => simp [sortStrings]
  | cons x xs ih => simp [sortStrings, mem_insertSorted, ih]

theorem lookupNets_eq_none {k : String} {l : List (String × List String)}
    (h : k ∉ l.map Prod.fst) : lookupNets k l = none := by
  induction l with
  | nil => rfl
  | cons hd rest ih =>
    obtain ⟨k', v⟩ := hd
    simp only [List.map_cons, List.mem_cons, not_or] at h
    simp [lookupNets, h.1, ih h.2]

theorem lookupNets_mem {k : String} {v : List String}
    {l : List (String × List String)} (h : lookupNets k l = some v) : (k, v) ∈ l := by
  induction l with
  | nil => simp [lookupNets] at h
  | cons hd rest ih =>
    obtain ⟨k', v'⟩ := hd
    by_cases hk : k = k'
    · subst hk
      simp [lookupNets] at h
      simp [h]
    · simp only [lookupNets, if_neg hk] at h
      exact List.mem_cons_of_mem _ (ih h)

theorem compare_core_cons_none {em : List (String × List String)} {op : String}
    {nets : List String} {rest : List (String × List String)}
    (hek : lookupNets op em = none) :
    compare_core em ((op, nets) :: rest)
      = ⟨(compare_core em rest).mismatched,
         (op, sortStrings nets) :: (compare_core em rest).unknownCarrier⟩ := by
  simp [compare_core, hek]

theorem compare_core_cons_some_empty {em : List (String × List String)} {op : String}
    {nets enets : List String} {rest : List (String × List String)}
    (hek : lookupNets op em = some enets)
    (hd : (mismatchNets (enets.map normalize_net) nets).isEmpty = true) :
    compare_core em ((op, nets) :: rest) = compare_core em rest := by
  simp [compare_core, hek, hd]

theorem compare_core_cons_some_ne {em : List (String × List String)} {op : String}
    {nets enets : List String} {rest : List (String × List String)}
    (hek : lookupNets op em = some enets)
    (hd : (mismatchNets (enets.map normalize_net) nets).isEmpty = false) :
    compare_core em ((op, nets) :: rest)
      = ⟨(op, sortStrings (mismatchNets (enets.map normalize_net) nets))
           :: (compare_core em rest).mismatched,
         (compare_core em rest).unknownCarrier⟩ := by
  simp [compare_core, hek, hd]

theorem diff_main_cons_none {em : List (String × List String)} {op : String}
    {nets : List String} {rest : List (String × List String)}
    (hek : lookupNets op em = none) :
    diff_main em ((op, nets) :: rest)
      = (if (mismatchNets [] nets).isEmpty then diff_main em rest
         else (op, sortStrings (mismatchNets [] nets)) :: diff_main em rest) := by
  simp [diff_main, hek]

theorem diff_main_cons_some {em : List (String × List String)} {op : String}
    {nets enets : List String} {rest : List (String × List String)}
    (hek : lookupNets op em = some enets) :
    diff_main em ((op, nets) :: rest)
      = (if (mismatchNets enets nets).isEmpty then diff_main em rest
         else (op, sortStrings (mismatchNets enets nets)) :: diff_main em rest) := by
  simp [diff_main, hek]

theorem mem_keys_of_mem_mismatched {em tm : List (String × List String)}
    {p : String × List String} (h : p ∈ (compare_core em tm).mismatched) :
    p.1 ∈ tm.map Prod.fst := by
  induction tm with
  | nil => simp [compare_core] at h
  | cons hd rest ih =>
    obtain ⟨op0, nets0⟩ := hd
    cases hek : lookupNets op0 em with
    | none =>
      rw [compare_core_cons_none hek] at h
      exact List.mem_cons_of_mem _ (ih h)
    | some enets =>
      cases hd2 : (mismatchNets (enets.map normalize_net) nets0).isEmpty with
      | true =>
        rw [compare_core_cons_some_empty hek hd2] at h
        exact List.mem_cons_of_mem _ (ih h)
      | false =>
        rw [compare_core_cons_some_ne hek hd2] at h
        rcases List.mem_cons.1 h with h1 | h2
        · rw [h1]
          simp
        · exact List.mem_cons_of_mem _ (ih h2)

theorem mem_keys_of_mem_unknown {em tm : List (String × List String)}
    {p : String × List String} (h : p ∈ (compare_core em tm).unknownCarrier) :
    p.1 ∈ tm.map Prod.fst := by
  induction tm with
  | nil => simp [compare_core] at h
  | cons hd rest ih =>
    obtain ⟨op0, nets0⟩ := hd
    cases hek : lookupNets op0 em with
    | none =>
      rw [compare_core_cons_none hek] at h
      rcases List.mem_cons.1 h with h1 | h2
      · rw [h1]
        simp
      · exact List.mem_cons_of_mem _ (ih h2)
    | some enets =>
      cases hd2 : (mismatchNets (enets.map normalize_net) nets0).isEmpty with
      | true =>
        rw [compare_core_cons_some_empty hek hd2] at h
        exact List.mem_cons_of_mem _ (ih h)
      | false =>
        rw [compare_core_cons_some_ne hek hd2] at h
        exact List.mem_cons_of_mem _ (ih h)

theorem mismatched_lookup_none {em tm : List (String × List String)} {op : String}
    (h : op ∉ tm.map Prod.fst) :
    lookupNets op (compare_core em tm).mismatched = none := by
  refine lookupNets_eq_none ?_
  intro hmem
  obtain ⟨p, hp, hp1⟩ := List.mem_map.1 hmem
  exact h (hp1 ▸ mem_keys_of_mem_mismatched hp)

theorem unknown_lookup_none {em tm : List (String × List String)} {op : String}
    (h : op ∉ tm.map Prod.fst) :
    lookupNets op (compare_core em tm).unknownCarrier = none := by
  refine lookupNets_eq_none ?_
  intro hmem
  obtain ⟨p, hp, hp1⟩ := List.mem_map.1 hmem
  exact h (hp1 ▸ mem_keys_of_mem_unknown hp)

theorem compare_keys_disjoint {em tm : List (String × List String)}
    (hnd : (tm.map Prod.fst).Nodup) {op : String}
    (hm : op ∈ (compare_core em tm).mismatched.map Prod.fst) :
    op ∉ (compare_core em tm).unknownCarrier.map Prod.fst := by
  induction tm with
  | nil => simp [compare_core] at hm
  | cons hd rest ih =>
    obtain ⟨op0, nets0⟩ := hd
    simp only [List.map_cons, List.nodup_cons] at hnd
    obtain ⟨hop0, hndr⟩ := hnd
    cases hek : lookupNets op0 em with
    | none =>
      rw [compare_core_cons_none hek] at hm ⊢
      have hop : op ∈ rest.map Prod.fst := by
        obtain ⟨p, hp, hp1⟩ := List.mem_map.1 hm
        exact hp1 ▸ mem_keys_of_mem_mismatched hp
      intro hcon
      simp only [List.map_cons, List.mem_cons] at hcon
      rcases hcon with h1 | h2
      · exact hop0 (h1 ▸ hop)
      · exact ih hndr hm h2
    | some enets =>
      cases hd2 : (mismatchNets (enets.map normalize_net) nets0).isEmpty with
      | true =>
        rw [compare_core_cons_some_empty hek hd2] at hm ⊢
        exact ih hndr hm
      | false =>
        rw [compare_core_cons_some_ne hek hd2] at hm ⊢
        intro hcon
        have hop : op ∈ rest.map Prod.fst := by
          obtain ⟨p, hp, hp1⟩ := List.mem_map.1 hcon
          exact hp1 ▸ mem_keys_of_mem_unknown hp
        simp only [List.map_cons, List.mem_cons] at hm
        rcases hm with h1 | h2
        · exact hop0 (h1 ▸ hop)
        · exact ih hndr h2 hcon

theorem compare_omits_fully_matched {em tm : List (String × List String)}
    (hnd : (tm.map Prod.fst).Nodup) {op : String} {nets enets : List String}
    (hmem : (op, nets) ∈ tm) (hek : lookupNets op em = some enets)
    (hall : ∀ n ∈ nets, normalize_net n ∈ enets.map normalize_net) :
    op ∉ (compare_core em tm).mismatched.map Prod.fst ∧
    op ∉ (compare_core em tm).unknownCarrier.map Prod.fst := by
  induction tm with
  | nil => simp at hmem
  | cons hd rest ih =>
    obtain ⟨op0, nets0⟩ := hd
    simp only [List.map_cons, List.nodup_cons] at hnd
    obtain ⟨hop0, hndr⟩ := hnd
    rcases List.mem_cons.1 hmem with heq | hmem'
    · cases heq
      have hd2 : (mismatchNets (enets.map normalize_net) nets).isEmpty = true := by
        rw [List.isEmpty_iff, mismatchNets, List.filter_eq_nil_iff]
        intro a ha
        obtain ⟨x, hx, hxeq⟩ := List.mem_map.1 (hall a ha)
        simp [List.contains]
        exact ⟨x, hx, hxeq⟩
      rw [compare_core_cons_some_empty hek hd2]
      constructor
      · intro hcon
        obtain ⟨p, hp, hp1⟩ := List.mem_map.1 hcon
        exact hop0 (hp1 ▸ mem_keys_of_mem_mismatched hp)
      · intro hcon
        obtain ⟨p, hp, hp1⟩ := List.mem_map.1 hcon
        exact hop0 (hp1 ▸ mem_keys_of_mem_unknown hp)
    · have hop : op ∈ rest.map Prod.fst := List.mem_map.2 ⟨(op, nets), hmem', rfl⟩
      have hne : op0 ≠ op := fun h => hop0 (h ▸ hop)
      obtain ⟨ihm, ihu⟩ := ih hndr hmem'
      cases hek0 : lookupNets op0 em with
      | none =>
        rw [compare_core_cons_none hek0]
        refine ⟨ihm, ?_⟩
        intro hcon
        simp only [List.map_cons, List.mem_cons] at hcon
        rcases hcon with h1 | h2
        · exact hne h1.symm
        · exact ihu h2
      | some enets0 =>
        cases hd2 : (mismatchNets (enets0.map normalize_net) nets0).isEmpty with
        | true =>
          rw [compare_core_cons_some_empty hek0 hd2]
          exact ⟨ihm, ihu⟩
        | false =>
          rw [compare_core_cons_some_ne hek0 hd2]
          refine ⟨?_, ihu⟩
          intro hcon
          simp only [List.map_cons, List.mem_cons] at hcon
          rcases hcon with h1 | h2
          · exact hne h1.symm
          · exact ihm h2

theorem mismatchNets_nil (nets : List String) : mismatchNets [] nets = nets := by
  rw [mismatchNets]
  refine List.filter_eq_self.mpr ?_
  intro a _
  rfl

theorem map_normalize_eq_self {l : List String}
    (h : ∀ n ∈ l, normalize_net n = n) : l.map normalize_net = l := by
  induction l with
  | nil => rfl
  | cons x xs ih =>
    simp [h x (List.mem_cons_self x xs),
      ih (fun n hn => h n (List.mem_cons_of_mem _ hn))]

/-! ### C1-C4, C10 -/

/-- C1: Reconciler scenario: for register `{"CT": {"1.2.3.0/24"}}` and
inventory `{"CT": {"1.2.3.0/24", "5.6.7.0/28"}, "CU": {"9.9.9.0/30"}}`,
`compare_and_output` computes `mismatched = {"CT": ["5.6.7.0/28"]}` and
`unknownCarrier = {"CU": ["9.9.9.0/30"]}`, each carrier's offending nets
sorted lexicographically. -/
theorem reconciler_scenario :
    compare_core [("CT", ["1.2.3.0/24"])]
        [("CT", ["1.2.3.0/24", "5.6.7.0/28"]), ("CU", ["9.9.9.0/30"])]
      = ⟨[("CT", ["5.6.7.0/28"])], [("CU", ["9.9.9.0/30"])]⟩ := by decide

/-- C2: The wildcard-to-prefix-length converter on its five
documented inputs: `"0.0.0.0" ↦ 32`, `"0" ↦ 32`, `"0.0.0.255" ↦ 24`,
`"0.0.0.7" ↦ 29`, `"255.255.255.255" ↦ 0` (each value being the total
count of 1-bits across the four complemented octets). -/
theorem wildcard_to_prefixlen_values :
    wildcard_to_prefixlen "0.0.0.0" = some 32 ∧
    wildcard_to_prefixlen "0" = some 32 ∧
    wildcard_to_prefixlen "0.0.0.255" = some 24 ∧
    wildcard_to_prefixlen "0.0.0.7" = some 29 ∧
    wildcard_to_prefixlen "255.255.255.255" = some 0 := by decide

/-- C3: Block-scanner re-entry rule: encountering a line whose
trimmed content starts with the stanza-open token while already inside a
stanza (whose buffer is necessarily non-empty) emits the current
unterminated buffer as a completed stanza as-is — no `"#"` delimiter
needed — and starts a new buffer containing exactly the triggering
line. -/
theorem extract_blocks_reentry (line : String) (rest cur blocks : List String)
    (hopen : pyStartsWith (pyStrip line) stanzaOpen = true)
    (hcur : cur.isEmpty = false) :
    extractBlocksAux (line :: rest) true cur blocks
      = extractBlocksAux rest true [line] (blocks ++ [String.join cur]) := by
  simp [extractBlocksAux, hopen, hcur]

theorem extract_blocks_reentry_witness :
    extractBlocksAux ["ip address-set internationalgn B\n"] true
        ["ip address-set internationalgn A\n address 9 1.1.1.1/32\n"] []
      = extractBlocksAux [] true ["ip address-set internationalgn B\n"]
          ([] ++ [String.join
            ["ip address-set internationalgn A\n address 9 1.1.1.1/32\n"]]) :=
  extract_blocks_reentry "ip address-set internationalgn B\n" []
    ["ip address-set internationalgn A\n address 9 1.1.1.1/32\n"] []
    (by decide) (by decide)

/-- C4: Line-rewriter round-trip:
`"  address 10 1.2.3.4 wildcard 0.0.0.7 description ABC\n"` rewrites to
`"  address 10 1.2.3.4/29 description ABC\n"` — prefix and suffix kept
verbatim, `<ip> wildcard <wc>` replaced by `<ip>/<prefixlen>`, and a
single trailing newline appended. -/
theorem convert_line_roundtrip :
    convert_line "  address 10 1.2.3.4 wildcard 0.0.0.7 description ABC\n"
      = some "  address 10 1.2.3.4/29 description ABC\n" := by decide

/-- C5: Report invariants of `compare_and_output` for every register
map and inventory map (inventory keys distinct, as in a Python dict):
every carrier in the report occurs in the inventory (a carrier present
only in the register is never reported); no carrier is in both the
mismatched section and the unknownCarrier section; and a carrier present
in both maps whose inventory nets all normalize into the register's
normalized set is omitted from the report entirely. -/
theorem compare_core_report_invariants (em tm : List (String × List String))
    (hnd : (tm.map Prod.fst).Nodup) (op : String) :
    ((op ∈ (compare_core em tm).mismatched.map Prod.fst ∨
      op ∈ (compare_core em tm).unknownCarrier.map Prod.fst) →
        op ∈ tm.map Prod.fst) ∧
    (¬(op ∈ (compare_core em tm).mismatched.map Prod.fst ∧
       op ∈ (compare_core em tm).unknownCarrier.map Prod.fst)) ∧
    (∀ nets enets, (op, nets) ∈ tm → lookupNets op em = some enets →
      (∀ n ∈ nets, normalize_net n ∈ enets.map normalize_net) →
      op ∉ (compare_core em tm).mismatched.map Prod.fst ∧
      op ∉ (compare_core em tm).unknownCarrier.map Prod.fst) := by
  refine ⟨?_, ?_, ?_⟩
  · rintro (h | h)
    · obtain ⟨p, hp, hp1⟩ := List.mem_map.1 h
      exact hp1 ▸ mem_keys_of_mem_mismatched hp
    · obtain ⟨p, hp, hp1⟩ := List.mem_map.1 h
      exact hp1 ▸ mem_keys_of_mem_unknown hp
  · rintro ⟨h1, h2⟩
    exact compare_keys_disjoint hnd h1 h2
  · intro nets enets hmem hek hall
    exact compare_omits_fully_matched hnd hmem hek hall

theorem compare_core_report_invariants_witness :
    "CT" ∉ (compare_core [("CT", ["1.2.3.0/24"])]
        [("CT", ["1.2.3.0/24"])]).mismatched.map Prod.fst ∧
    "CT" ∉ (compare_core [("CT", ["1.2.3.0/24"])]
        [("CT", ["1.2.3.0/24"])]).unknownCarrier.map Prod.fst :=
  (compare_core_report_invariants [("CT", ["1.2.3.0/24"])] [("CT", ["1.2.3.0/24"])]
      (by decide) "CT").2.2 ["1.2.3.0/24"] ["1.2.3.0/24"]
    (by decide) (by decide) (by decide)

/-- C6: Normalization equivalence:
`normalize_net "1.2.3.0 /24" = normalize_net "1.2.3.0/24"` (normalization
deletes every whitespace character), and consequently an inventory net
`n` that agrees with some register net `r` up to embedded whitespace is
never part of the reconciler's mismatched list for that carrier, even
though the raw strings differ. -/
theorem normalize_equiv_not_mismatched (reg nets : List String) (op n r : String)
    (l : List String) (hr : r ∈ reg) (hn : normalize_net n = normalize_net r)
    (hl : lookupNets op (compare_core [(op, reg)] [(op, nets)]).mismatched = some l) :
    normalize_net "1.2.3.0 /24" = normalize_net "1.2.3.0/24" ∧ n ∉ l := by
  refine ⟨by decide, ?_⟩
  have hcc : compare_core [(op, reg)] [(op, nets)]
      = (if (mismatchNets (reg.map normalize_net) nets).isEmpty then ⟨[], []⟩
         else ⟨[(op, sortStrings (mismatchNets (reg.map normalize_net) nets))], []⟩) := by
    simp [compare_core, lookupNets]
  by_cases hh : (mismatchNets (reg.map normalize_net) nets).isEmpty
  · rw [hcc, if_pos hh] at hl
    simp [lookupNets] at hl
  · rw [hcc, if_neg hh] at hl
    simp [lookupNets] at hl
    subst hl
    rw [mem_sortStrings]
    intro hmem
    have hpred := (List.mem_filter.1 hmem).2
    have hin : normalize_net n ∈ reg.map normalize_net :=
      hn ▸ List.mem_map_of_mem normalize_net hr
    rw [← List.elem_iff] at hin
    simp [List.contains, hin] at hpred
    exact hpred r hr hn.symm

theorem normalize_equiv_not_mismatched_witness :
    normalize_net "1.2.3.0 /24" = normalize_net "1.2.3.0/24" ∧
    "1.2.3.0 /24" ∉ ["9.9.9.0/30"] :=
  normalize_equiv_not_mismatched ["1.2.3.0/24"] ["1.2.3.0 /24", "9.9.9.0/30"]
    "CT" "1.2.3.0 /24" "1.2.3.0/24" ["9.9.9.0/30"]
    (by decide) (by decide) (by decide)

/-- A dot-separated piece that `int()` parses to a byte in `[0, 255]`. -/
def isByteStr (p : String) : Bool :=
  match pyInt p with
  | some n => 0 ≤ n && n ≤ 255
  | none => false

set_option maxRecDepth 4000 in
theorem popCountNat_le_eight : ∀ n : Nat, n ≤ 255 → popCountNat n ≤ 8 := by decide

theorem pyIntList_byte {l : List String} (h : ∀ p ∈ l, isByteStr p = true) :
    ∃ os, pyIntList l = some os ∧ os.length = l.length ∧
      ∀ o ∈ os, 0 ≤ o ∧ o ≤ 255 := by
  induction l with
  | nil => exact ⟨[], rfl, rfl, by simp⟩
  | cons s rest ih =>
    have hs := h s (List.mem_cons_self s rest)
    obtain ⟨os, hos, hlen, hbd⟩ := ih (fun p hp => h p (List.mem_cons_of_mem _ hp))
    cases hn : pyInt s with
    | none => simp [isByteStr, hn] at hs
    | some n =>
      have hb : 0 ≤ n ∧ n ≤ 255 := by simpa [isByteStr, hn] using hs
      refine ⟨n :: os, ?_, ?_, ?_⟩
      · simp [pyIntList, hn, hos]
      · simp [hlen]
      · intro o ho
        rcases List.mem_cons.1 ho with h1 | h2
        · exact h1 ▸ hb
        · exact hbd o h2

theorem prefixSum_bound {os : List Int} (hbd : ∀ o ∈ os, 0 ≤ o ∧ o ≤ 255) :
    0 ≤ ((os.map (fun o => (255 : Int) - o)).map
        (fun m => (pyBinCount1 m : Int))).sum ∧
    ((os.map (fun o => (255 : Int) - o)).map
        (fun m => (pyBinCount1 m : Int))).sum ≤ 8 * (os.length : Int) := by
  induction os with
  | nil => simp
  | cons o rest ih =>
    obtain ⟨h0, h255⟩ := hbd o (List.mem_cons_self o rest)
    obtain ⟨ih0, ih1⟩ := ih (fun x hx => hbd x (List.mem_cons_of_mem _ hx))
    have hna : (255 - o).natAbs ≤ 255 := by omega
    have hterm : (pyBinCount1 (255 - o) : Int) ≤ 8 := by
      have := popCountNat_le_eight _ hna
      rw [pyBinCount1]
      exact_mod_cast this
    have hterm0 : (0 : Int) ≤ (pyBinCount1 (255 - o) : Int) := Int.ofNat_nonneg _
    simp only [List.map_cons, List.sum_cons, List.length_cons]
    constructor
    · exact add_nonneg hterm0 ih0
    · push_cast
      omega

/-- C8: Safety of the wildcard converter: for every wildcard string
that (after stripping) is the literal `"0"` or splits on `"."` into at
most four pieces each parsing as a byte in `[0, 255]`,
`wildcard_to_prefixlen` never raises and returns an integer `r` with
`0 ≤ r ≤ 32`. -/
theorem wildcard_to_prefixlen_safe (w : String)
    (h : pyStrip w = "0" ∨
      ((splitOnDot (pyStrip w)).length ≤ 4 ∧
       ∀ p ∈ splitOnDot (pyStrip w), isByteStr p = true)) :
    ∃ r : Int, wildcard_to_prefixlen w = some r ∧ 0 ≤ r ∧ r ≤ 32 := by
  by_cases h0 : pyStrip w = "0"
  · refine ⟨32, ?_, by omega, by omega⟩
    simp [wildcard_to_prefixlen, h0]
    decide
  · rcases h with h0' | ⟨hlen, hall⟩
    · exact absurd h0' h0
    · have hall4 : ∀ p ∈ (splitOnDot (pyStrip w) ++ ["0", "0", "0", "0"]).take 4,
          isByteStr p = true := by
        intro p hp
        rcases List.mem_append.1 (List.mem_of_mem_take hp) with h1 | h2
        · exact hall p h1
        · have : p = "0" := by simpa using h2
          rw [this]
          decide
      obtain ⟨os, hos, hlen2, hbd⟩ := pyIntList_byte hall4
      have hlen4 : (os.length : Int) = 4 := by
        rw [hlen2, List.length_take, List.length_append]
        simp only [List.length_cons, List.length_nil]
        omega
      obtain ⟨hs0, hs1⟩ := prefixSum_bound hbd
      refine ⟨_, ?_, hs0, ?_⟩
      · simp [wildcard_to_prefixlen, h0, hos]
      · rw [hlen4] at hs1
        omega

theorem wildcard_to_prefixlen_safe_witness :
    ∃ r : Int, wildcard_to_prefixlen "0.0.0.7" = some r ∧ 0 ≤ r ∧ r ≤ 32 :=
  wildcard_to_prefixlen_safe "0.0.0.7" (Or.inr ⟨by decide, by decide⟩)

/-- C9 counterexample: The two reconcilers do not agree for every
register mapping: `2.文本表格比较.py`'s `main` compares inventory nets
against the stored register strings as-is, while `gn_check_all.py`'s
`compare_and_output` re-normalizes them first, so a register entry
containing embedded whitespace is reported by the former but not by the
latter. -/
theorem diff_implementations_disagree :
    lookupNets "CT" (diff_main [("CT", ["1.2.3.0 /24"])] [("CT", ["1.2.3.0/24"])])
      ≠ reportLookup
          (compare_core [("CT", ["1.2.3.0 /24"])] [("CT", ["1.2.3.0/24"])]) "CT" := by
  decide

/-- C9 amended: The two reconcilers agree whenever the register
map's nets are whitespace-free (fixpoints of normalization — guaranteed
by `load_excel_gn_map`, which stores normalized nets) and the inventory
map is dict-like (distinct keys, every net set non-empty — guaranteed by
`load_txt_gn_map`): carrier by carrier, the single diff bucket computed
by `2.文本表格比较.py`'s `main` equals the union of the `mismatched` and
`unknownCarrier` buckets computed by `gn_check_all.py`'s
`compare_and_output`. -/
theorem diff_main_agrees_compare_core (em tm : List (String × List String))
    (hem : ∀ p ∈ em, ∀ n ∈ p.2, normalize_net n = n)
    (htm : ∀ p ∈ tm, p.2 ≠ [])
    (hnd : (tm.map Prod.fst).Nodup) (op : String) :
    lookupNets op (diff_main em tm) = reportLookup (compare_core em tm) op := by
  induction tm with
  | nil => simp [diff_main, compare_core, reportLookup, lookupNets]
  | cons hd rest ih =>
    obtain ⟨op0, nets0⟩ := hd
    simp only [List.map_cons, List.nodup_cons] at hnd
    obtain ⟨hop0, hndr⟩ := hnd
    have hnets0 : nets0 ≠ [] := htm (op0, nets0) (List.mem_cons_self _ _)
    have htm' : ∀ p ∈ rest, p.2 ≠ [] := fun p hp => htm p (List.mem_cons_of_mem _ hp)
    have ih' := ih htm' hndr
    cases hek : lookupNets op0 em with
    | none =>
      have hdne : (mismatchNets [] nets0).isEmpty = false := by
        rw [mismatchNets_nil]
        cases nets0 with
        | nil => exact absurd rfl hnets0
        | cons a l => rfl
      rw [diff_main_cons_none hek, compare_core_cons_none hek]
      rw [mismatchNets_nil] at hdne ⊢
      by_cases hop : op = op0
      · subst hop
        have hmn := @mismatched_lookup_none em rest _ hop0
        simp [hdne, lookupNets, reportLookup, hmn]
      · simp only [hdne, Bool.false_eq_true, if_false, lookupNets, if_neg hop]
        rw [ih']
        cases hlm : lookupNets op (compare_core em rest).mismatched with
        | some v => simp [reportLookup, hlm]
        | none => simp [reportLookup, hlm, lookupNets, if_neg hop]
    | some enets =>
      have hmape : enets.map normalize_net = enets :=
        map_normalize_eq_self (hem _ (lookupNets_mem hek))
      rw [diff_main_cons_some hek]
      cases hde : (mismatchNets enets nets0).isEmpty with
      | true =>
        have hde2 : (mismatchNets (enets.map normalize_net) nets0).isEmpty = true := by
          rw [hmape]
          exact hde
        rw [compare_core_cons_some_empty hek hde2]
        simp only [hde, if_true]
        exact ih'
      | false =>
        have hde2 : (mismatchNets (enets.map normalize_net) nets0).isEmpty = false := by
          rw [hmape]
          exact hde
        rw [compare_core_cons_some_ne hek hde2]
        rw [hmape]
        by_cases hop : op = op0
        · subst hop
          simp [hde, lookupNets, reportLookup]
        · simp only [hde, Bool.false_eq_true, if_false, lookupNets, if_neg hop]
          rw [ih']
          cases hlm : lookupNets op (compare_core em rest).mismatched with
          | some v => simp [reportLookup, hlm, lookupNets, if_neg hop]
          | none => simp [reportLookup, hlm, lookupNets, if_neg hop]

theorem diff_main_agrees_compare_core_witness :
    lookupNets "CT" (diff_main [("CT", ["1.2.3.0/24"])]
        [("CT", ["1.2.3.0/24", "5.6.7.0/28"]), ("CU", ["9.9.9.0/30"])])
      = reportLookup (compare_core [("CT", ["1.2.3.0/24"])]
          [("CT", ["1.2.3.0/24", "5.6.7.0/28"]), ("CU", ["9.9.9.0/30"])]) "CT" :=
  diff_main_agrees_compare_core [("CT", ["1.2.3.0/24"])]
    [("CT", ["1.2.3.0/24", "5.6.7.0/28"]), ("CU", ["9.9.9.0/30"])]
    (by decide) (by decide) (by decide) "CT"

theorem loadRows_append_none (rows : List (Option String × Option String))
    (cop last : Option String) (m : List (String × List String)) :
    loadRows (rows ++ [(cop, none)]) last m = loadRows rows last m := by
  induction rows generalizing last m with
  | nil => rfl
  | cons hd rest ih =>
    obtain ⟨c, g⟩ := hd
    simp [loadRows, ih]

/-- C7: Register loading forward-fills the carrier column:
(1) the rows `[("CT", "1.1.1.0/24"), (None, "2.2.2.0/24")]` attribute
both nets to carrier `"CT"`;
(2) a row with a missing net cell contributes no addresses;
(3) yet such a row still participates in forward-fill: a carrier sitting
on a net-less row is inherited by the following carrier-less row exactly
as if it sat on that row;
(4) any row whose resolved carrier is empty after trimming is skipped —
its row body leaves the accumulated register untouched, whatever the net
cell holds. -/
theorem load_register_forward_fill :
    (load_register [(some "CT", some "1.1.1.0/24"), (none, some "2.2.2.0/24")]
       = [("CT", ["1.1.1.0/24", "2.2.2.0/24"])]) ∧
    (∀ (rows : List (Option String × Option String)) (cop : Option String),
       load_register (rows ++ [(cop, none)]) = load_register rows) ∧
    (∀ c n : String,
       load_register [(some c, none), (none, some n)]
         = load_register [(some c, some n)]) ∧
    (∀ (resolved gnCell : Option String) (m : List (String × List String)),
       pyStrip (strOfCell resolved) = "" → loadRow resolved gnCell m = m) := by
  refine ⟨by decide, ?_, ?_, ?_⟩
  · intro rows cop
    rw [load_register, load_register, loadRows_append_none]
  · intro c n
    rfl
  · intro resolved gnCell m h
    cases gnCell with
    | none => rfl
    | some gn => simp [loadRow, h]

/-- C10: The line `"address 1 1.2.3.4 wildcard foo description X"`
matches `LINE_PATTERN` (so the no-match pass-through does not apply),
yet its wildcard token is not dot-separated integers, so `convert_line`
raises (`int("foo")` → `ValueError`, modelled as `none`) instead of
returning any string. -/
theorem convert_line_unparsable_wildcard :
    (lineMatch (rstripNewline "address 1 1.2.3.4 wildcard foo description X")).isSome
        = true ∧
    convert_line "address 1 1.2.3.4 wildcard foo description X" = none := by decide

end GnTools
